import Mathlib

/-!
# Chat and file relay server (`src/server.js`)

A shallow embedding of the socket.io event handlers of `src/server.js`:
`set username`, `chat message`, `file upload` and `disconnect`, together with
the process-wide `users` object.

Modelling conventions.

* Socket ids are strings.  The `users` object is an association list in
  insertion order: socket.io ids are 20-character tokens, never array indices,
  so `Object.values(users)` enumerates the values in insertion order, an
  assignment to an existing key keeps its position and `delete` removes it.
* socket.io delivery: `io.emit` reaches every connected socket, `socket.emit`
  the socket itself, `socket.broadcast.emit` every connected socket but the
  sender, `socket.to(room).emit` every socket of `room` but the sender.  The
  server never calls `join`, so the only room a socket is in is the one named
  by its own id.  A step returns the list of deliveries `(receiver, event)`.
* When the `disconnect` handler runs, socket.io has already taken the socket
  out of its rooms and of the namespace.
* Library functions whose exact behaviour is outside the repository
  (`Buffer.from(_, "base64")`, `String.prototype.toLowerCase`) are fields of
  `Runtime`; results that depend on the environment (`crypto.randomBytes(10)`,
  the clock, whether `fs.writeFileSync` throws) travel with the inbound event.
* `path.join(UPLOADS_DIR, safeFileName)` is kept symbolic: the file store is
  keyed by `safeFileName`.
-/

namespace Relay

/-! ## Data model -/

/-- The identifier of a socket (`socket.id`). -/
abbrev ConnId := String

/-- One octet of a `Buffer`. -/
abbrev Byte := Fin 256

/-- The settings block at the top of `server.js` (lines 22-25). -/
structure Config where
  MAX_FILE_SIZE : Nat
  ALLOWED_FILE_TYPES : List String
  DELETE_OLD_FILES : Bool
  ENCRYPT_FILE_NAMES : Bool
deriving DecidableEq, Repr

/-- The values the source assigns to the settings. -/
def serverConfig : Config where
  MAX_FILE_SIZE := 20 * 1024 * 1024
  ALLOWED_FILE_TYPES := ["jpg", "jpeg", "png", "pdf", "txt", "mp4"]
  DELETE_OLD_FILES := true
  ENCRYPT_FILE_NAMES := true

/-- Library functions of the JavaScript runtime used by the upload handler. -/
structure Runtime where
  /-- Stands for `Buffer.from(fileData, "base64")`. -/
  base64Decode : String → List Byte
  /-- Stands for `String.prototype.toLowerCase`. -/
  toLowerCase : String → String

/-- The payload of a `chat message` event sent by the server. -/
structure ChatPayload where
  username : String
  message : String
  timestamp : Option String
  system : Option Bool
deriving DecidableEq, Repr

/-- The payload of a `file upload` event sent by the server. -/
structure FilePayload where
  sender : Option String
  fileName : String
  fileUrl : String
deriving DecidableEq, Repr

/-- Events the server emits. -/
inductive OutEvent where
  | userUpdate (names : List String)
  | chatMessage (p : ChatPayload)
  | fileUpload (p : FilePayload)
  | errorMessage (msg : String)
deriving DecidableEq, Repr

/-- One delivery: the receiving socket and the event it gets. -/
abbrev Delivery := ConnId × OutEvent

/-- The argument of an inbound `file upload` event, with the environment's
answers for this upload: the ten octets `crypto.randomBytes(10)` returns and
whether `fs.writeFileSync` succeeds. -/
structure Upload where
  recipientId : Option String
  fileName : String
  fileData : String
  randomBytes : { l : List Byte // l.length = 10 }
  writeOk : Bool

/-- Events the server receives. -/
inductive Event where
  | connect (c : ConnId)
  | setUsername (c : ConnId) (username : String)
  | chatMessage (c : ConnId) (message : String) (now : String)
  | fileUpload (c : ConnId) (u : Upload)
  | disconnect (c : ConnId)

/-- The server state: connected sockets, the `users` object, the files in the
uploads directory and the armed delete timers (by file name). -/
structure State where
  sockets : List ConnId
  users : List (ConnId × String)
  files : List (String × List Byte)
  timers : List String
deriving DecidableEq, Repr

/-- The state at start-up. -/
def State.init : State := ⟨[], [], [], []⟩

/-! ## JavaScript object and string primitives -/

/-- Property read `obj[k]`; `none` is `undefined`. -/
def getProp {β : Type} : List (String × β) → String → Option β
  | [], _ => none
  | (k', v) :: rest, k => if k' = k then some v else getProp rest k

/-- Property assignment `obj[k] = v`: overwrites in place or appends. -/
def setProp {β : Type} : List (String × β) → String → β → List (String × β)
  | [], k, v => [(k, v)]
  | (k', v') :: rest, k, v =>
    if k' = k then (k, v) :: rest else (k', v') :: setProp rest k v

/-- Property removal `delete obj[k]`. -/
def deleteProp {β : Type} (obj : List (String × β)) (k : String) : List (String × β) :=
  obj.filter (fun p => decide (p.1 ≠ k))

/-- The result of `Object.values(obj)`. -/
def objectValues {β : Type} (obj : List (String × β)) : List β :=
  obj.map Prod.snd

/-- The own keys of an object, in enumeration order. -/
def objectKeys {β : Type} (obj : List (String × β)) : List String :=
  obj.map Prod.fst

/-- JavaScript truthiness of a value that is a string or `undefined`. -/
def truthy : Option String → Bool
  | none => false
  | some s => decide (s ≠ "")

/-- The result of `str.split(sep)` for a one-character separator. -/
def splitChars (sep : Char) : List Char → List (List Char)
  | [] => [[]]
  | c :: cs =>
    if c = sep then [] :: splitChars sep cs
    else
      match splitChars sep cs with
      | [] => [[c]]
      | seg :: rest => (c :: seg) :: rest

/-- The characters the regular expression `\s` matches. -/
def isWhiteSpace (c : Char) : Bool :=
  let n := c.toNat
  (9 ≤ n && n ≤ 13) || n = 32 || n = 0xA0 || n = 0x1680 || (0x2000 ≤ n && n ≤ 0x200A)
    || n = 0x2028 || n = 0x2029 || n = 0x202F || n = 0x205F || n = 0x3000 || n = 0xFEFF

/-- The result of `fileName.replace(/\s/g, "_")`. -/
def replaceWhiteSpace (s : String) : String :=
  String.mk (s.data.map fun c => if isWhiteSpace c then '_' else c)

/-- One lowercase hexadecimal digit. -/
def hexDigit (n : Nat) : Char :=
  if n < 10 then Char.ofNat (48 + n) else Char.ofNat (87 + n)

/-- The characters of `buf.toString("hex")`. -/
def hexChars : List Byte → List Char
  | [] => []
  | b :: bs => hexDigit (b.val / 16) :: hexDigit (b.val % 16) :: hexChars bs

/-- The result of `buf.toString("hex")`. -/
def toHex (bs : List Byte) : String := String.mk (hexChars bs)

/-! ## socket.io delivery -/

/-- Delivery of `io.emit(e)`. -/
def ioEmit (s : State) (e : OutEvent) : List Delivery :=
  s.sockets.map fun d => (d, e)

/-- Delivery of `socket.emit(e)`. -/
def socketEmit (c : ConnId) (e : OutEvent) : List Delivery :=
  [(c, e)]

/-- Delivery of `socket.broadcast.emit(e)`. -/
def broadcastEmit (s : State) (c : ConnId) (e : OutEvent) : List Delivery :=
  (s.sockets.filter fun d => decide (d ≠ c)).map fun d => (d, e)

/-- Delivery of `socket.to(room).emit(e)`. -/
def toRoomEmit (s : State) (c : ConnId) (room : String) (e : OutEvent) : List Delivery :=
  (s.sockets.filter fun d => decide (d = room) && decide (d ≠ c)).map fun d => (d, e)

/-- The events a socket receives out of a list of deliveries, in order. -/
def received (out : List Delivery) (c : ConnId) : List OutEvent :=
  (out.filter fun p => decide (p.1 = c)).map Prod.snd

/-! ## Handlers -/

/-- The text of the size rejection (line 62). -/
def tooLargeMsg : String := "❌ File too large (Max: 20MB)"

/-- The text of the type rejection (line 69). -/
def typeNotAllowedMsg : String := "❌ File type not allowed"

/-- The text sent from the `catch` block (line 104). -/
def uploadFailedMsg : String := "❌ File upload failed."

/-- Handler of `set username` (lines 41-44). -/
def onSetUsername (s : State) (c : ConnId) (username : String) : State × List Delivery :=
  let users := setProp s.users c username
  let s1 := { s with users := users }
  (s1, ioEmit s1 (.userUpdate (objectValues users)))

/-- Handler of `chat message` (lines 46-53). -/
def onChatMessage (s : State) (c : ConnId) (message now : String) : State × List Delivery :=
  if !truthy (getProp s.users c) then (s, [])
  else
    match getProp s.users c with
    | none => (s, [])
    | some name =>
      (s, ioEmit s (.chatMessage
        { username := name, message := message, timestamp := some now, system := none }))

/-- The expression `fileName.split(".").pop()` (line 67).  `split` never
returns an empty array, so `pop` always finds a last element. -/
def lastSegment (fileName : String) : String :=
  String.mk ((splitChars '.' fileName.data).getLastD [])

/-- The value of `fileExtension` (line 67). -/
def fileExtension (rt : Runtime) (fileName : String) : String :=
  rt.toLowerCase (lastSegment fileName)

/-- The value of `safeFileName` (lines 74-76). -/
def safeFileName (cfg : Config) (rt : Runtime) (u : Upload) : String :=
  if cfg.ENCRYPT_FILE_NAMES then toHex u.randomBytes.val ++ "." ++ fileExtension rt u.fileName
  else replaceWhiteSpace u.fileName

/-- Handler of `file upload` (lines 56-106).  The one statement of the `try`
block that can throw on these inputs is `fs.writeFileSync`; the `catch` block
answers with `uploadFailedMsg`. -/
def onFileUpload (cfg : Config) (rt : Runtime) (s : State) (c : ConnId) (u : Upload) :
    State × List Delivery :=
  let fileBuffer := rt.base64Decode u.fileData
  if fileBuffer.length > cfg.MAX_FILE_SIZE then
    (s, socketEmit c (.errorMessage tooLargeMsg))
  else if cfg.ALLOWED_FILE_TYPES.length > 0
      && !cfg.ALLOWED_FILE_TYPES.contains (fileExtension rt u.fileName) then
    (s, socketEmit c (.errorMessage typeNotAllowedMsg))
  else if !u.writeOk then
    (s, socketEmit c (.errorMessage uploadFailedMsg))
  else
    let stored := safeFileName cfg rt u
    let s1 := { s with files := setProp s.files stored fileBuffer }
    let fileUrl := "/uploads/" ++ stored
    let note := OutEvent.fileUpload
      { sender := getProp s.users c, fileName := u.fileName, fileUrl := fileUrl }
    let out :=
      if truthy u.recipientId then
        match u.recipientId with
        | none => []
        | some r => toRoomEmit s1 c r note
      else ioEmit s1 note
    let s2 := if cfg.DELETE_OLD_FILES then { s1 with timers := s1.timers ++ [stored] } else s1
    (s2, out)

/-- The upload passes the size check and the type check of the handler and
the write succeeds: the handler reaches line 80. -/
def accepts (cfg : Config) (rt : Runtime) (u : Upload) : Bool :=
  !decide ((rt.base64Decode u.fileData).length > cfg.MAX_FILE_SIZE)
    && !(cfg.ALLOWED_FILE_TYPES.length > 0
      && !cfg.ALLOWED_FILE_TYPES.contains (fileExtension rt u.fileName))
    && u.writeOk

/-- Handler of `disconnect` (lines 108-119), run on the state from which the
socket has already been taken out. -/
def onDisconnect (s : State) (c : ConnId) : State × List Delivery :=
  if truthy (getProp s.users c) then
    match getProp s.users c with
    | none => (s, [])
    | some name =>
      let bye := broadcastEmit s c (.chatMessage
        { username := "System", message := name ++ " left the chat!",
          timestamp := none, system := some true })
      let users := deleteProp s.users c
      let s1 := { s with users := users }
      (s1, bye ++ ioEmit s1 (.userUpdate (objectValues users)))
  else (s, [])

/-- One inbound event.  Handlers exist only for connected sockets, so an event
of a socket that is not connected does nothing, and ids are unique, so a
`connect` with the id of a connected socket does nothing. -/
def step (cfg : Config) (rt : Runtime) (s : State) : Event → State × List Delivery
  | .connect c =>
    if c ∈ s.sockets then (s, []) else ({ s with sockets := s.sockets ++ [c] }, [])
  | .setUsername c username =>
    if c ∈ s.sockets then onSetUsername s c username else (s, [])
  | .chatMessage c message now =>
    if c ∈ s.sockets then onChatMessage s c message now else (s, [])
  | .fileUpload c u =>
    if c ∈ s.sockets then onFileUpload cfg rt s c u else (s, [])
  | .disconnect c =>
    if c ∈ s.sockets then
      onDisconnect { s with sockets := s.sockets.filter fun d => decide (d ≠ c) } c
    else (s, [])

/-- A sequence of inbound events, with all deliveries in order. -/
def run (cfg : Config) (rt : Runtime) : State → List Event → State × List Delivery
  | s, [] => (s, [])
  | s, e :: es =>
    let r := step cfg rt s e
    let r2 := run cfg rt r.1 es
    (r2.1, r.2 ++ r2.2)

/-- The names an event stores are non-empty. -/
def Event.namesNonEmpty : Event → Prop
  | .setUsername _ n => n ≠ ""
  | _ => True

/-! ## A concrete runtime for ASCII text -/

/-- The value of a character of the base64 alphabets. -/
def base64Value (c : Char) : Option Nat :=
  let n := c.toNat
  if 65 ≤ n ∧ n ≤ 90 then some (n - 65)
  else if 97 ≤ n ∧ n ≤ 122 then some (n - 71)
  else if 48 ≤ n ∧ n ≤ 57 then some (n + 4)
  else if n = 43 ∨ n = 45 then some 62
  else if n = 47 ∨ n = 95 then some 63
  else none

/-- Packing of six-bit values into octets. -/
def packSextets : List Nat → List Byte
  | a :: b :: c :: d :: rest =>
    Fin.ofNat ((a * 4 + b / 16) % 256) :: Fin.ofNat ((b * 16 + c / 4) % 256)
      :: Fin.ofNat ((c * 64 + d) % 256) :: packSextets rest
  | [a, b, c] => [Fin.ofNat ((a * 4 + b / 16) % 256), Fin.ofNat ((b * 16 + c / 4) % 256)]
  | [a, b] => [Fin.ofNat ((a * 4 + b / 16) % 256)]
  | _ => []

/-- A decoder for base64 text (RFC 4648): characters outside the alphabet are
skipped and decoding ends at the first `=`. -/
def base64DecodeAscii (s : String) : List Byte :=
  packSextets ((s.data.takeWhile fun c => decide (c ≠ '=')).filterMap base64Value)

/-- Lowercasing of the letters `A`-`Z`; agrees with `toLowerCase` on ASCII text. -/
def toLowerAscii (s : String) : String :=
  String.mk (s.data.map Char.toLower)

/-- The runtime used in the concrete scenarios. -/
def asciiRuntime : Runtime := ⟨base64DecodeAscii, toLowerAscii⟩

/-! ## Concrete scenarios -/

/-- Ten octets standing for one draw of `crypto.randomBytes(10)`. -/
def drawOne : { l : List Byte // l.length = 10 } :=
  ⟨[1, 2, 3, 4, 5, 6, 7, 8, 9, 10], rfl⟩

/-- Ten octets standing for another draw of `crypto.randomBytes(10)`. -/
def drawTwo : { l : List Byte // l.length = 10 } :=
  ⟨[171, 205, 239, 0, 17, 34, 51, 68, 85, 102], rfl⟩

/-- An upload of the two octets `hi` (base64 `aGk=`) that the disk accepts. -/
def sampleUpload (recipientId : Option String) (fileName : String)
    (draw : { l : List Byte // l.length = 10 }) : Upload :=
  ⟨recipientId, fileName, "aGk=", draw, true⟩

/-- The source's settings with the size limit lowered to one octet. -/
def tinyConfig : Config := { serverConfig with MAX_FILE_SIZE := 1 }

/-- Sockets `A` and `B` connected and named Alice and Bob, in this order. -/
def aliceAndBob : State := ⟨["A", "B"], [("A", "Alice"), ("B", "Bob")], [], []⟩

/-! ## Definitions that follow the wording of the specification -/

/-- The substring of `fileName` after its last `.`, or the whole name when it
contains no `.`, as the specification words the extension (case kept). -/
def specExtension (fileName : String) : String :=
  if '.' ∈ fileName.data then
    String.mk (fileName.data.reverse.takeWhile fun ch => decide (ch ≠ '.')).reverse
  else fileName

/-- The sixteen hexadecimal digits. -/
def hexAlphabet : List Char := "0123456789abcdef".data

/-! ## Lemmas on objects -/

theorem getProp_setProp_self {β : Type} (obj : List (String × β)) (k : String) (v : β) :
    getProp (setProp obj k v) k = some v := by
  induction obj with
  | nil => simp [setProp, getProp]
  | cons p rest ih =>
    obtain ⟨k', v'⟩ := p
    by_cases h : k' = k
    · simp [setProp, getProp, h]
    · simp [setProp, getProp, h, ih]

theorem getProp_setProp_of_ne {β : Type} (obj : List (String × β)) (k d : String) (v : β)
    (hd : d ≠ k) : getProp (setProp obj k v) d = getProp obj d := by
  induction obj with
  | nil => simp [setProp, getProp, Ne.symm hd]
  | cons p rest ih =>
    obtain ⟨k', v'⟩ := p
    by_cases h : k' = k
    · subst h
      simp [setProp, getProp, Ne.symm hd]
    · by_cases h2 : k' = d
      · subst h2
        simp [setProp, getProp, h]
      · simp [setProp, getProp, h, h2, ih]

theorem getProp_eq_none_iff {β : Type} (obj : List (String × β)) (k : String) :
    getProp obj k = none ↔ k ∉ objectKeys obj := by
  induction obj with
  | nil => simp [getProp, objectKeys]
  | cons p rest ih =>
    obtain ⟨k', v'⟩ := p
    by_cases h : k' = k
    · simp [getProp, objectKeys, h]
    · have h2 : ¬ k = k' := fun e => h e.symm
      simpa [getProp, objectKeys, h, h2] using ih

theorem objectKeys_setProp {β : Type} (obj : List (String × β)) (k : String) (v : β) :
    objectKeys (setProp obj k v)
      = if k ∈ objectKeys obj then objectKeys obj else objectKeys obj ++ [k] := by
  induction obj with
  | nil => simp [setProp, objectKeys]
  | cons p rest ih =>
    obtain ⟨k', v'⟩ := p
    by_cases h : k' = k
    · subst h
      simp [setProp, objectKeys]
    · have h2 : ¬ k = k' := fun e => h e.symm
      have ih2 := ih
      simp only [objectKeys] at ih2
      by_cases hm : k ∈ List.map Prod.fst rest
      · simp [setProp, objectKeys, h, h2, hm] at ih2 ⊢
        exact ih2
      · simp [setProp, objectKeys, h, h2, hm] at ih2 ⊢
        exact ih2

theorem deleteProp_cons {β : Type} (p : String × β) (rest : List (String × β)) (k : String) :
    deleteProp (p :: rest) k = if p.1 = k then deleteProp rest k else p :: deleteProp rest k := by
  by_cases h : p.1 = k <;> simp [deleteProp, List.filter_cons, h]

theorem getProp_deleteProp_self {β : Type} (obj : List (String × β)) (k : String) :
    getProp (deleteProp obj k) k = none := by
  induction obj with
  | nil => rfl
  | cons p rest ih =>
    rw [deleteProp_cons]
    by_cases h : p.1 = k
    · rw [if_pos h]; exact ih
    · rw [if_neg h]
      obtain ⟨k', v'⟩ := p
      simp only [getProp]
      rw [if_neg h]; exact ih

theorem getProp_deleteProp_of_ne {β : Type} (obj : List (String × β)) (k d : String)
    (hd : d ≠ k) : getProp (deleteProp obj k) d = getProp obj d := by
  induction obj with
  | nil => rfl
  | cons p rest ih =>
    rw [deleteProp_cons]
    obtain ⟨k', v'⟩ := p
    by_cases h : k' = k
    · have h2 : ¬ k' = d := fun e => hd (e.symm.trans h)
      rw [if_pos h]
      simp only [getProp]
      rw [if_neg h2]; exact ih
    · rw [if_neg h]
      simp only [getProp]
      rw [ih]

theorem deleteProp_sublist {β : Type} (obj : List (String × β)) (k : String) :
    List.Sublist (deleteProp obj k) obj := by
  unfold deleteProp
  exact List.filter_sublist obj

theorem truthy_eq_true_iff (o : Option String) :
    truthy o = true ↔ ∃ n, o = some n ∧ n ≠ "" := by
  cases o with
  | none => simp [truthy]
  | some s => simp [truthy]

/-! ## Lemmas on deliveries -/

theorem received_nil (c : ConnId) : received [] c = [] := rfl

theorem received_append (a b : List Delivery) (c : ConnId) :
    received (a ++ b) c = received a c ++ received b c := by
  simp [received]

theorem received_pairs (l : List ConnId) (e : OutEvent) (c : ConnId) :
    received (l.map fun d => (d, e)) c = List.replicate (l.count c) e := by
  induction l with
  | nil => simp [received]
  | cons d rest ih =>
    simp only [received] at ih
    by_cases h : d = c
    · subst h
      simp [received, List.filter_cons, List.replicate_succ, ih]
    · have hb : (d == c) = false := by simpa using h
      simp [received, List.filter_cons, h, ih, List.count_cons, hb]

theorem received_ioEmit_of_mem (s : State) (e : OutEvent) (c : ConnId)
    (hnd : s.sockets.Nodup) (hc : c ∈ s.sockets) : received (ioEmit s e) c = [e] := by
  unfold ioEmit
  rw [received_pairs, List.count_eq_one_of_mem hnd hc]
  rfl

theorem received_ioEmit_of_not_mem (s : State) (e : OutEvent) (c : ConnId)
    (hc : c ∉ s.sockets) : received (ioEmit s e) c = [] := by
  unfold ioEmit
  rw [received_pairs, List.count_eq_zero_of_not_mem hc]
  rfl

theorem received_broadcastEmit_self (s : State) (e : OutEvent) (c : ConnId) :
    received (broadcastEmit s c e) c = [] := by
  unfold broadcastEmit
  rw [received_pairs, List.count_eq_zero_of_not_mem]
  · rfl
  · simp

theorem received_broadcastEmit_of_mem (s : State) (e : OutEvent) (c d : ConnId)
    (hnd : s.sockets.Nodup) (hd : d ∈ s.sockets) (hne : d ≠ c) :
    received (broadcastEmit s c e) d = [e] := by
  unfold broadcastEmit
  rw [received_pairs, List.count_eq_one_of_mem (hnd.filter _)]
  · rfl
  · simp [hd, hne]

theorem received_toRoomEmit_of_ne (s : State) (e : OutEvent) (c d : ConnId) (room : String)
    (hne : d ≠ room ∨ d = c ∨ d ∉ s.sockets) : received (toRoomEmit s c room e) d = [] := by
  unfold toRoomEmit
  rw [received_pairs, List.count_eq_zero_of_not_mem]
  · rfl
  · simp only [List.mem_filter, Bool.and_eq_true, decide_eq_true_eq]
    rintro ⟨h1, h2, h3⟩
    rcases hne with h | h | h
    · exact h h2
    · exact h3 h
    · exact h h1

theorem received_toRoomEmit_room (s : State) (e : OutEvent) (c : ConnId) (room : String)
    (hnd : s.sockets.Nodup) (hr : room ∈ s.sockets) (hne : room ≠ c) :
    received (toRoomEmit s c room e) room = [e] := by
  unfold toRoomEmit
  rw [received_pairs, List.count_eq_one_of_mem (hnd.filter _)]
  · rfl
  · simp [hr, hne]

/-! ## Lemmas on strings -/

theorem splitChars_ne_nil (sep : Char) (l : List Char) : splitChars sep l ≠ [] := by
  cases l with
  | nil => simp [splitChars]
  | cons c cs =>
    unfold splitChars
    split
    · simp
    · split <;> simp

theorem splitChars_of_not_mem (sep : Char) (l : List Char) (h : sep ∉ l) :
    splitChars sep l = [l] := by
  induction l with
  | nil => rfl
  | cons c cs ih =>
    have hc : ¬ c = sep := fun e => h (by simp [e])
    have hcs : sep ∉ cs := fun e => h (List.mem_cons_of_mem _ e)
    simp [splitChars, hc, ih hcs]

theorem splitChars_of_mem (sep : Char) (l : List Char) (h : sep ∈ l) :
    ∃ seg s2 rest, splitChars sep l = seg :: s2 :: rest := by
  induction l with
  | nil => simp at h
  | cons c cs ih =>
    by_cases hc : c = sep
    · cases hS : splitChars sep cs with
      | nil => exact absurd hS (splitChars_ne_nil sep cs)
      | cons a rest => exact ⟨[], a, rest, by simp [splitChars, hc, hS]⟩
    · have hcs : sep ∈ cs := by
        rcases List.mem_cons.mp h with e | e
        · exact absurd e.symm hc
        · exact e
      obtain ⟨seg, s2, rest, hS⟩ := ih hcs
      exact ⟨c :: seg, s2, rest, by simp [splitChars, hc, hS]⟩

theorem takeWhile_append_all {α : Type} (p : α → Bool) (a b : List α)
    (h : ∀ x ∈ a, p x = true) : (a ++ b).takeWhile p = a ++ b.takeWhile p := by
  induction a with
  | nil => rfl
  | cons x xs ih =>
    have hx : p x = true := h x (by simp)
    simp [List.takeWhile_cons, hx, ih (fun y hy => h y (List.mem_cons_of_mem _ hy))]

theorem takeWhile_append_not_all {α : Type} (p : α → Bool) (a b : List α)
    (h : ∃ x ∈ a, p x = false) : (a ++ b).takeWhile p = a.takeWhile p := by
  induction a with
  | nil => simp at h
  | cons x xs ih =>
    cases hx : p x with
    | false => simp [List.takeWhile_cons, hx]
    | true =>
      obtain ⟨y, hy, hpy⟩ := h
      have hy2 : y ∈ xs := by
        rcases List.mem_cons.mp hy with e | e
        · subst e; rw [hx] at hpy; cases hpy
        · exact e
      simp [List.takeWhile_cons, hx, ih ⟨y, hy2, hpy⟩]

/-- The run of characters after the last separator. -/
theorem lastRun_cons (sep c : Char) (cs : List Char) :
    (((c :: cs).reverse.takeWhile fun ch => decide (ch ≠ sep)).reverse)
      = if sep ∈ cs then ((cs.reverse.takeWhile fun ch => decide (ch ≠ sep)).reverse)
        else if c = sep then cs else c :: cs := by
  rw [List.reverse_cons]
  by_cases h : sep ∈ cs
  · rw [if_pos h, takeWhile_append_not_all]
    exact ⟨sep, by simpa using h, by simp⟩
  · rw [if_neg h, takeWhile_append_all]
    · by_cases hc : c = sep
      · simp [hc, List.takeWhile_cons]
      · simp [hc, List.takeWhile_cons]
    · intro x hx
      have hx2 : x ∈ cs := by simpa using hx
      have : x ≠ sep := fun e => h (e ▸ hx2)
      simpa using this

theorem lastRun_of_not_mem (sep : Char) (l : List Char) (h : sep ∉ l) :
    ((l.reverse.takeWhile fun ch => decide (ch ≠ sep)).reverse) = l := by
  have := takeWhile_append_all (fun ch => decide (ch ≠ sep)) l.reverse [] (by
    intro x hx
    have hx2 : x ∈ l := by simpa using hx
    have : x ≠ sep := fun e => h (e ▸ hx2)
    simpa using this)
  simp only [List.append_nil, List.takeWhile_nil] at this
  rw [this, List.reverse_reverse]

theorem getLastD_splitChars (sep : Char) (l : List Char) :
    (splitChars sep l).getLastD []
      = ((l.reverse.takeWhile fun ch => decide (ch ≠ sep)).reverse) := by
  induction l with
  | nil => rfl
  | cons c cs ih =>
    rw [lastRun_cons]
    by_cases h : sep ∈ cs
    · rw [if_pos h, ← ih]
      obtain ⟨seg, s2, rest, hS⟩ := splitChars_of_mem sep cs h
      by_cases hc : c = sep
      · simp [splitChars, hc, hS]
      · simp [splitChars, hc, hS]
    · rw [if_neg h]
      by_cases hc : c = sep
      · simp [splitChars, hc, splitChars_of_not_mem sep cs h]
      · simp [splitChars, hc, splitChars_of_not_mem sep cs h]

/-- The code's `split(".").pop()` is the extension in the specification's words. -/
theorem lastSegment_eq_specExtension (fileName : String) :
    lastSegment fileName = specExtension fileName := by
  unfold lastSegment specExtension
  rw [getLastD_splitChars]
  by_cases h : '.' ∈ fileName.data
  · rw [if_pos h]
  · rw [if_neg h, lastRun_of_not_mem '.' fileName.data h]

theorem hexChars_length (bs : List Byte) : (hexChars bs).length = 2 * bs.length := by
  induction bs with
  | nil => rfl
  | cons b rest ih => simp [hexChars, ih]; omega

theorem hexDigit_mem (n : Nat) (h : n < 16) : hexDigit n ∈ hexAlphabet := by
  interval_cases n <;> decide

theorem hexChars_mem (bs : List Byte) : ∀ ch ∈ hexChars bs, ch ∈ hexAlphabet := by
  induction bs with
  | nil => simp [hexChars]
  | cons b rest ih =>
    intro ch hch
    simp only [hexChars, List.mem_cons] at hch
    rcases hch with e | e | e
    · rw [e]; exact hexDigit_mem _ (by omega)
    · rw [e]; exact hexDigit_mem _ (Nat.mod_lt _ (by norm_num))
    · exact ih ch e

theorem hexDigit_injective (m n : Nat) (hm : m < 16) (hn : n < 16)
    (h : hexDigit m = hexDigit n) : m = n := by
  interval_cases m <;> interval_cases n <;> first | rfl | (exact absurd h (by decide))

theorem hexChars_injective (a b : List Byte) (hlen : a.length = b.length)
    (h : hexChars a = hexChars b) : a = b := by
  induction a generalizing b with
  | nil =>
    cases b with
    | nil => rfl
    | cons y ys => simp at hlen
  | cons x xs ih =>
    cases b with
    | nil => simp at hlen
    | cons y ys =>
      simp only [hexChars, List.cons.injEq] at h
      obtain ⟨h1, h2, h3⟩ := h
      have e1 := hexDigit_injective _ _ (by omega) (by omega) h1
      have e2 := hexDigit_injective _ _ (Nat.mod_lt _ (by norm_num)) (Nat.mod_lt _ (by norm_num)) h2
      have exy : x = y := by
        apply Fin.ext
        omega
      have := ih ys (by simpa using hlen) h3
      rw [exy, this]

/-! ## Lemmas on the upload handler -/

theorem errors_distinct :
    tooLargeMsg ≠ typeNotAllowedMsg ∧ tooLargeMsg ≠ uploadFailedMsg
      ∧ typeNotAllowedMsg ≠ uploadFailedMsg := by
  decide

theorem typeCheck_fails_iff (cfg : Config) (rt : Runtime) (fileName : String) :
    (decide (cfg.ALLOWED_FILE_TYPES.length > 0)
        && !cfg.ALLOWED_FILE_TYPES.contains (fileExtension rt fileName)) = true
      ↔ (cfg.ALLOWED_FILE_TYPES ≠ []
          ∧ rt.toLowerCase (specExtension fileName) ∉ cfg.ALLOWED_FILE_TYPES) := by
  unfold fileExtension
  rw [lastSegment_eq_specExtension]
  simp [List.length_pos]

theorem onFileUpload_too_large (cfg : Config) (rt : Runtime) (s : State) (c : ConnId)
    (u : Upload) (h : cfg.MAX_FILE_SIZE < (rt.base64Decode u.fileData).length) :
    onFileUpload cfg rt s c u = (s, [(c, .errorMessage tooLargeMsg)]) := by
  simp [onFileUpload, h, socketEmit]

theorem onFileUpload_type_not_allowed (cfg : Config) (rt : Runtime) (s : State) (c : ConnId)
    (u : Upload) (h : (rt.base64Decode u.fileData).length ≤ cfg.MAX_FILE_SIZE)
    (ht : (decide (cfg.ALLOWED_FILE_TYPES.length > 0)
        && !cfg.ALLOWED_FILE_TYPES.contains (fileExtension rt u.fileName)) = true) :
    onFileUpload cfg rt s c u = (s, [(c, .errorMessage typeNotAllowedMsg)]) := by
  unfold onFileUpload
  simp only [gt_iff_lt, Nat.not_lt.mpr h, if_false, socketEmit]
  rw [if_pos ht]

theorem onFileUpload_write_failed (cfg : Config) (rt : Runtime) (s : State) (c : ConnId)
    (u : Upload) (h : (rt.base64Decode u.fileData).length ≤ cfg.MAX_FILE_SIZE)
    (ht : (decide (cfg.ALLOWED_FILE_TYPES.length > 0)
        && !cfg.ALLOWED_FILE_TYPES.contains (fileExtension rt u.fileName)) = false)
    (hw : u.writeOk = false) :
    onFileUpload cfg rt s c u = (s, [(c, .errorMessage uploadFailedMsg)]) := by
  unfold onFileUpload
  simp only [gt_iff_lt, Nat.not_lt.mpr h, if_false, socketEmit]
  rw [if_neg (by rw [ht]; exact Bool.false_ne_true)]
  simp [hw]

theorem accepts_iff (cfg : Config) (rt : Runtime) (u : Upload) :
    accepts cfg rt u = true ↔
      (rt.base64Decode u.fileData).length ≤ cfg.MAX_FILE_SIZE
      ∧ (decide (cfg.ALLOWED_FILE_TYPES.length > 0)
        && !cfg.ALLOWED_FILE_TYPES.contains (fileExtension rt u.fileName)) = false
      ∧ u.writeOk = true := by
  unfold accepts
  simp only [Bool.and_eq_true, Bool.not_eq_true', decide_eq_false_iff_not, gt_iff_lt,
    Nat.not_lt, and_assoc]

theorem onFileUpload_accepted (cfg : Config) (rt : Runtime) (s : State) (c : ConnId)
    (u : Upload) (hacc : accepts cfg rt u = true) :
    onFileUpload cfg rt s c u =
      ({ sockets := s.sockets, users := s.users,
         files := setProp s.files (safeFileName cfg rt u) (rt.base64Decode u.fileData),
         timers := if cfg.DELETE_OLD_FILES then s.timers ++ [safeFileName cfg rt u]
                   else s.timers },
       (s.sockets.filter fun d =>
          match u.recipientId with
          | none => true
          | some r => if r = "" then true else decide (d = r) && decide (d ≠ c)).map fun d =>
        (d, OutEvent.fileUpload
          { sender := getProp s.users c, fileName := u.fileName,
            fileUrl := "/uploads/" ++ safeFileName cfg rt u })) := by
  obtain ⟨h1, h2, h3⟩ := (accepts_iff cfg rt u).mp hacc
  unfold onFileUpload
  simp only [gt_iff_lt, Nat.not_lt.mpr h1, if_false]
  rw [if_neg (by rw [h2]; exact Bool.false_ne_true), if_neg (by simp [h3])]
  cases hr : u.recipientId with
  | none =>
    cases hd : cfg.DELETE_OLD_FILES <;> simp [truthy, ioEmit]
  | some r =>
    by_cases hre : r = ""
    · cases hd : cfg.DELETE_OLD_FILES <;> simp [truthy, ioEmit, hre]
    · cases hd : cfg.DELETE_OLD_FILES <;> simp [truthy, toRoomEmit, hre]

theorem step_fileUpload (cfg : Config) (rt : Runtime) (s : State) (c : ConnId) (u : Upload)
    (hc : c ∈ s.sockets) : step cfg rt s (.fileUpload c u) = onFileUpload cfg rt s c u := by
  simp [step, hc]

theorem map_fileUpload_ne_error (l : List ConnId) (p : FilePayload) (c : ConnId) (m : String) :
    (l.map fun d => (d, OutEvent.fileUpload p)) ≠ [(c, OutEvent.errorMessage m)] := by
  cases l with
  | nil => simp
  | cons d rest => simp

/-- The four ways the upload handler can end. -/
theorem onFileUpload_outcome (cfg : Config) (rt : Runtime) (s : State) (c : ConnId)
    (u : Upload) :
    (cfg.MAX_FILE_SIZE < (rt.base64Decode u.fileData).length
        ∧ onFileUpload cfg rt s c u = (s, [(c, .errorMessage tooLargeMsg)]))
    ∨ ((rt.base64Decode u.fileData).length ≤ cfg.MAX_FILE_SIZE
        ∧ (cfg.ALLOWED_FILE_TYPES ≠ []
          ∧ rt.toLowerCase (specExtension u.fileName) ∉ cfg.ALLOWED_FILE_TYPES)
        ∧ onFileUpload cfg rt s c u = (s, [(c, .errorMessage typeNotAllowedMsg)]))
    ∨ ((rt.base64Decode u.fileData).length ≤ cfg.MAX_FILE_SIZE
        ∧ ¬ (cfg.ALLOWED_FILE_TYPES ≠ []
          ∧ rt.toLowerCase (specExtension u.fileName) ∉ cfg.ALLOWED_FILE_TYPES)
        ∧ onFileUpload cfg rt s c u = (s, [(c, .errorMessage uploadFailedMsg)]))
    ∨ ((rt.base64Decode u.fileData).length ≤ cfg.MAX_FILE_SIZE
        ∧ ¬ (cfg.ALLOWED_FILE_TYPES ≠ []
          ∧ rt.toLowerCase (specExtension u.fileName) ∉ cfg.ALLOWED_FILE_TYPES)
        ∧ accepts cfg rt u = true) := by
  by_cases h1 : cfg.MAX_FILE_SIZE < (rt.base64Decode u.fileData).length
  · exact Or.inl ⟨h1, onFileUpload_too_large cfg rt s c u h1⟩
  · have h1' := Nat.not_lt.mp h1
    cases ht : (decide (cfg.ALLOWED_FILE_TYPES.length > 0)
        && !cfg.ALLOWED_FILE_TYPES.contains (fileExtension rt u.fileName)) with
    | true =>
      exact Or.inr (Or.inl ⟨h1', (typeCheck_fails_iff cfg rt u.fileName).mp ht,
        onFileUpload_type_not_allowed cfg rt s c u h1' ht⟩)
    | false =>
      have hn : ¬ (cfg.ALLOWED_FILE_TYPES ≠ []
          ∧ rt.toLowerCase (specExtension u.fileName) ∉ cfg.ALLOWED_FILE_TYPES) := by
        intro hh
        have := (typeCheck_fails_iff cfg rt u.fileName).mpr hh
        rw [ht] at this
        exact Bool.false_ne_true this
      cases hw : u.writeOk with
      | false =>
        exact Or.inr (Or.inr (Or.inl ⟨h1', hn,
          onFileUpload_write_failed cfg rt s c u h1' ht hw⟩))
      | true =>
        exact Or.inr (Or.inr (Or.inr ⟨h1', hn, (accepts_iff cfg rt u).mpr ⟨h1', ht, hw⟩⟩))

/-! ## The claims on file uploads -/

/-- C4: an upload is answered with the too-large error exactly when the decoded
payload is longer than `MAX_FILE_SIZE`, which the source sets to 20*1024*1024; a
payload of exactly `MAX_FILE_SIZE` octets is not rejected for size.  On the
rejection the only delivery is that one error to the sender and the state
(files and timers included) is unchanged. -/
theorem file_too_large_rejected (cfg : Config) (rt : Runtime) (s : State) (c : ConnId)
    (u : Upload) (hc : c ∈ s.sockets) :
    ((step cfg rt s (.fileUpload c u)).2 = [(c, OutEvent.errorMessage tooLargeMsg)]
        ↔ cfg.MAX_FILE_SIZE < (rt.base64Decode u.fileData).length)
    ∧ (cfg.MAX_FILE_SIZE < (rt.base64Decode u.fileData).length →
        step cfg rt s (.fileUpload c u) = (s, [(c, OutEvent.errorMessage tooLargeMsg)]))
    ∧ ((rt.base64Decode u.fileData).length = cfg.MAX_FILE_SIZE →
        (step cfg rt s (.fileUpload c u)).2 ≠ [(c, OutEvent.errorMessage tooLargeMsg)])
    ∧ serverConfig.MAX_FILE_SIZE = 20 * 1024 * 1024 := by
  rw [step_fileUpload cfg rt s c u hc]
  have key : (onFileUpload cfg rt s c u).2 = [(c, OutEvent.errorMessage tooLargeMsg)]
      → cfg.MAX_FILE_SIZE < (rt.base64Decode u.fileData).length := by
    intro h
    rcases onFileUpload_outcome cfg rt s c u with ⟨h1, _⟩ | ⟨_, _, h2⟩ | ⟨_, _, h2⟩ | ⟨_, _, h2⟩
    · exact h1
    · rw [h2] at h
      simp only [List.cons.injEq, Prod.mk.injEq, OutEvent.errorMessage.injEq, true_and,
        and_true] at h
      exact absurd h.symm errors_distinct.1
    · rw [h2] at h
      simp only [List.cons.injEq, Prod.mk.injEq, OutEvent.errorMessage.injEq, true_and,
        and_true] at h
      exact absurd h.symm errors_distinct.2.1
    · rw [onFileUpload_accepted cfg rt s c u h2] at h
      exact absurd h (map_fileUpload_ne_error _ _ _ _)
  refine ⟨⟨key, fun h => by rw [onFileUpload_too_large cfg rt s c u h]⟩,
    onFileUpload_too_large cfg rt s c u, ?_, rfl⟩
  intro heq h
  have := key h
  omega

/-- C5: for an upload within the size limit, with `ext` the lowercased text
after the last `.` of the name (the whole lowercased name when it has no `.`),
the upload is answered with the type error exactly when the allow-list is
non-empty and `ext` is not in it; an empty allow-list rejects nothing.  On the
rejection the only delivery is that one error to the sender, its text differs
from the too-large text, and the state (files and timers included) is
unchanged. -/
theorem file_type_rejected (cfg : Config) (rt : Runtime) (s : State) (c : ConnId)
    (u : Upload) (hc : c ∈ s.sockets)
    (hsize : (rt.base64Decode u.fileData).length ≤ cfg.MAX_FILE_SIZE) :
    ((step cfg rt s (.fileUpload c u)).2 = [(c, OutEvent.errorMessage typeNotAllowedMsg)]
        ↔ (cfg.ALLOWED_FILE_TYPES ≠ []
            ∧ rt.toLowerCase (specExtension u.fileName) ∉ cfg.ALLOWED_FILE_TYPES))
    ∧ ((cfg.ALLOWED_FILE_TYPES ≠ []
            ∧ rt.toLowerCase (specExtension u.fileName) ∉ cfg.ALLOWED_FILE_TYPES) →
        step cfg rt s (.fileUpload c u) = (s, [(c, OutEvent.errorMessage typeNotAllowedMsg)]))
    ∧ (cfg.ALLOWED_FILE_TYPES = [] →
        (step cfg rt s (.fileUpload c u)).2 ≠ [(c, OutEvent.errorMessage typeNotAllowedMsg)])
    ∧ typeNotAllowedMsg ≠ tooLargeMsg := by
  rw [step_fileUpload cfg rt s c u hc]
  have back : (cfg.ALLOWED_FILE_TYPES ≠ []
      ∧ rt.toLowerCase (specExtension u.fileName) ∉ cfg.ALLOWED_FILE_TYPES) →
      onFileUpload cfg rt s c u = (s, [(c, OutEvent.errorMessage typeNotAllowedMsg)]) :=
    fun h => onFileUpload_type_not_allowed cfg rt s c u hsize
      ((typeCheck_fails_iff cfg rt u.fileName).mpr h)
  have key : (onFileUpload cfg rt s c u).2 = [(c, OutEvent.errorMessage typeNotAllowedMsg)]
      → (cfg.ALLOWED_FILE_TYPES ≠ []
          ∧ rt.toLowerCase (specExtension u.fileName) ∉ cfg.ALLOWED_FILE_TYPES) := by
    intro h
    rcases onFileUpload_outcome cfg rt s c u with ⟨h1, _⟩ | ⟨_, h1, _⟩ | ⟨_, _, h2⟩ | ⟨_, _, h2⟩
    · omega
    · exact h1
    · rw [h2] at h
      simp only [List.cons.injEq, Prod.mk.injEq, OutEvent.errorMessage.injEq, true_and,
        and_true] at h
      exact absurd h.symm errors_distinct.2.2
    · rw [onFileUpload_accepted cfg rt s c u h2] at h
      exact absurd h (map_fileUpload_ne_error _ _ _ _)
  refine ⟨⟨key, fun h => by rw [back h]⟩, back, ?_, fun h => errors_distinct.1 h.symm⟩
  intro hempty h
  exact (key h).1 hempty

theorem onFileUpload_accepted_files (cfg : Config) (rt : Runtime) (s : State) (c : ConnId)
    (u : Upload) (hacc : accepts cfg rt u = true) :
    getProp (onFileUpload cfg rt s c u).1.files (safeFileName cfg rt u)
      = some (rt.base64Decode u.fileData) := by
  rw [onFileUpload_accepted cfg rt s c u hacc]
  exact getProp_setProp_self _ _ _

theorem onFileUpload_accepted_room (cfg : Config) (rt : Runtime) (s : State) (c : ConnId)
    (u : Upload) (r : String) (hacc : accepts cfg rt u = true)
    (hr : u.recipientId = some r) (hre : r ≠ "") :
    (onFileUpload cfg rt s c u).2 = toRoomEmit s c r (.fileUpload
      { sender := getProp s.users c, fileName := u.fileName,
        fileUrl := "/uploads/" ++ safeFileName cfg rt u }) := by
  rw [onFileUpload_accepted cfg rt s c u hacc]
  simp [hr, hre, toRoomEmit]

theorem onFileUpload_accepted_all (cfg : Config) (rt : Runtime) (s : State) (c : ConnId)
    (u : Upload) (hacc : accepts cfg rt u = true) (hrec : truthy u.recipientId = false) :
    (onFileUpload cfg rt s c u).2 = ioEmit s (.fileUpload
      { sender := getProp s.users c, fileName := u.fileName,
        fileUrl := "/uploads/" ++ safeFileName cfg rt u }) := by
  rw [onFileUpload_accepted cfg rt s c u hacc]
  cases hr : u.recipientId with
  | none => simp [ioEmit]
  | some r =>
    have hre : r = "" := by simpa [truthy, hr] using hrec
    simp [ioEmit, hre]

/-- C3, as amended: for a stored upload with a non-empty `recipientId`, the socket
whose id is `recipientId` receives exactly the one file notification when it is
connected and is not the sender; every other socket, the sender included,
receives nothing, and when the recipient is not connected or is the sender no
delivery is made at all. -/
theorem point_to_point_delivery (cfg : Config) (rt : Runtime) (s : State) (c : ConnId)
    (u : Upload) (r : String) (hnd : s.sockets.Nodup) (hc : c ∈ s.sockets)
    (hacc : accepts cfg rt u = true) (hr : u.recipientId = some r) (hre : r ≠ "") :
    (r ∈ s.sockets → r ≠ c →
        received (step cfg rt s (.fileUpload c u)).2 r = [.fileUpload
          { sender := getProp s.users c, fileName := u.fileName,
            fileUrl := "/uploads/" ++ safeFileName cfg rt u }])
    ∧ (∀ d, d ≠ r → received (step cfg rt s (.fileUpload c u)).2 d = [])
    ∧ received (step cfg rt s (.fileUpload c u)).2 c = []
    ∧ ((r ∉ s.sockets ∨ r = c) → (step cfg rt s (.fileUpload c u)).2 = [])
    ∧ getProp (step cfg rt s (.fileUpload c u)).1.files (safeFileName cfg rt u)
        = some (rt.base64Decode u.fileData) := by
  rw [step_fileUpload cfg rt s c u hc, onFileUpload_accepted_room cfg rt s c u r hacc hr hre]
  refine ⟨fun hrs hrc => received_toRoomEmit_room s _ c r hnd hrs hrc,
    fun d hd => received_toRoomEmit_of_ne s _ c d r (Or.inl hd),
    received_toRoomEmit_of_ne s _ c c r (Or.inr (Or.inl rfl)), ?_,
    onFileUpload_accepted_files cfg rt s c u hacc⟩
  intro h
  unfold toRoomEmit
  rw [List.map_eq_nil_iff, List.filter_eq_nil_iff]
  intro d hd
  simp only [Bool.and_eq_true, decide_eq_true_eq, not_and, not_not]
  intro hdr
  rcases h with h | h
  · exact absurd (hdr ▸ hd) h
  · rw [hdr, h]

/-- C8: for a stored upload without a recipient, every connected socket, the
sender included, receives exactly one file notification; all of them carry the
sender's entry of `users`, the original `fileName` and the same `fileUrl`, which
is `/uploads/` followed by the name under which the bytes were written. -/
theorem broadcast_upload_delivery (cfg : Config) (rt : Runtime) (s : State) (c : ConnId)
    (u : Upload) (hnd : s.sockets.Nodup) (hc : c ∈ s.sockets)
    (hacc : accepts cfg rt u = true) (hrec : truthy u.recipientId = false) :
    getProp (step cfg rt s (.fileUpload c u)).1.files (safeFileName cfg rt u)
        = some (rt.base64Decode u.fileData)
    ∧ (∀ d ∈ s.sockets,
        received (step cfg rt s (.fileUpload c u)).2 d = [.fileUpload
          { sender := getProp s.users c, fileName := u.fileName,
            fileUrl := "/uploads/" ++ safeFileName cfg rt u }])
    ∧ (∀ d, d ∉ s.sockets → received (step cfg rt s (.fileUpload c u)).2 d = [])
    ∧ (step cfg rt s (.fileUpload c u)).1.sockets = s.sockets := by
  rw [step_fileUpload cfg rt s c u hc]
  refine ⟨onFileUpload_accepted_files cfg rt s c u hacc, ?_, ?_, ?_⟩
  · intro d hd
    rw [onFileUpload_accepted_all cfg rt s c u hacc hrec]
    exact received_ioEmit_of_mem s _ d hnd hd
  · intro d hd
    rw [onFileUpload_accepted_all cfg rt s c u hacc hrec]
    exact received_ioEmit_of_not_mem s _ d hd
  · rw [onFileUpload_accepted cfg rt s c u hacc]

theorem toHex_length (bs : { l : List Byte // l.length = 10 }) :
    (toHex bs.val).length = 20 := by
  unfold toHex
  rw [String.length_mk, hexChars_length, bs.property]

theorem safeFileName_randomized (cfg : Config) (rt : Runtime) (u : Upload)
    (henc : cfg.ENCRYPT_FILE_NAMES = true) :
    safeFileName cfg rt u
      = toHex u.randomBytes.val ++ "." ++ rt.toLowerCase (specExtension u.fileName) := by
  unfold safeFileName fileExtension
  rw [if_pos henc, lastSegment_eq_specExtension]

theorem safeFileName_injective (cfg : Config) (rt : Runtime) (u u2 : Upload)
    (henc : cfg.ENCRYPT_FILE_NAMES = true)
    (h : safeFileName cfg rt u2 = safeFileName cfg rt u) : u2.randomBytes = u.randomBytes := by
  rw [safeFileName_randomized cfg rt u henc, safeFileName_randomized cfg rt u2 henc] at h
  have hd := congrArg String.data h
  simp only [String.data_append, toHex, List.append_assoc] at hd
  have hl : (hexChars u2.randomBytes.val).length = (hexChars u.randomBytes.val).length := by
    rw [hexChars_length, hexChars_length, u.randomBytes.property, u2.randomBytes.property]
  have := (List.append_inj hd hl).1
  exact Subtype.ext (hexChars_injective _ _
    (by rw [u.randomBytes.property, u2.randomBytes.property]) this)

/-- C10, as amended: with `ENCRYPT_FILE_NAMES` on, an accepted upload is written
under a token of 20 hexadecimal characters followed by `.` and the lowercased
extension of `fileName` (the lowercased text after its last `.`, or the whole
lowercased name when it has no `.`), and two uploads whose random draws differ
get different stored names. -/
theorem randomized_stored_name (cfg : Config) (rt : Runtime) (s : State) (c : ConnId)
    (u : Upload) (hc : c ∈ s.sockets) (henc : cfg.ENCRYPT_FILE_NAMES = true)
    (hacc : accepts cfg rt u = true) :
    getProp (step cfg rt s (.fileUpload c u)).1.files (safeFileName cfg rt u)
        = some (rt.base64Decode u.fileData)
    ∧ safeFileName cfg rt u
        = toHex u.randomBytes.val ++ "." ++ rt.toLowerCase (specExtension u.fileName)
    ∧ (toHex u.randomBytes.val).length = 20
    ∧ (∀ ch ∈ (toHex u.randomBytes.val).data, ch ∈ hexAlphabet)
    ∧ (∀ u2 : Upload, u2.randomBytes ≠ u.randomBytes →
        safeFileName cfg rt u2 ≠ safeFileName cfg rt u) := by
  rw [step_fileUpload cfg rt s c u hc]
  exact ⟨onFileUpload_accepted_files cfg rt s c u hacc, safeFileName_randomized cfg rt u henc,
    toHex_length u.randomBytes, hexChars_mem u.randomBytes.val,
    fun u2 hne h => hne (safeFileName_injective cfg rt u u2 henc h)⟩

/-- Witness of C4: with a limit of one octet, the two-octet upload of `A` is
answered with the too-large error only, and nothing else changes; with a limit of
two octets the same upload, whose base64 text has four characters, is not
answered with the too-large error. -/
theorem file_too_large_rejected_witness :
    "A" ∈ aliceAndBob.sockets
    ∧ tinyConfig.MAX_FILE_SIZE < (asciiRuntime.base64Decode "aGk=").length
    ∧ step tinyConfig asciiRuntime aliceAndBob
        (.fileUpload "A" (sampleUpload none "a.png" drawOne))
      = (aliceAndBob, [("A", OutEvent.errorMessage tooLargeMsg)])
    ∧ (asciiRuntime.base64Decode "aGk=").length = 2 ∧ "aGk=".length = 4
    ∧ (step { serverConfig with MAX_FILE_SIZE := 2 } asciiRuntime aliceAndBob
        (.fileUpload "A" (sampleUpload none "a.png" drawOne))).2
      ≠ [("A", OutEvent.errorMessage tooLargeMsg)] :=
  ⟨by decide, by decide,
    (file_too_large_rejected tinyConfig asciiRuntime aliceAndBob "A"
      (sampleUpload none "a.png" drawOne) (by decide)).2.1 (by decide),
    by decide, by decide,
    (file_too_large_rejected { serverConfig with MAX_FILE_SIZE := 2 } asciiRuntime
      aliceAndBob "A" (sampleUpload none "a.png" drawOne) (by decide)).2.2.1 (by decide)⟩

/-- Witness of C5: under the source's allow-list an upload named `run.EXE` and
one named `README` are answered with the type error only. -/
theorem file_type_rejected_witness :
    "A" ∈ aliceAndBob.sockets
    ∧ (asciiRuntime.base64Decode "aGk=").length ≤ serverConfig.MAX_FILE_SIZE
    ∧ asciiRuntime.toLowerCase (specExtension "run.EXE") = "exe"
    ∧ step serverConfig asciiRuntime aliceAndBob
        (.fileUpload "A" (sampleUpload none "run.EXE" drawOne))
      = (aliceAndBob, [("A", OutEvent.errorMessage typeNotAllowedMsg)])
    ∧ asciiRuntime.toLowerCase (specExtension "README") = "readme"
    ∧ step serverConfig asciiRuntime aliceAndBob
        (.fileUpload "A" (sampleUpload none "README" drawOne))
      = (aliceAndBob, [("A", OutEvent.errorMessage typeNotAllowedMsg)]) :=
  ⟨by decide, by decide, by decide,
    (file_type_rejected serverConfig asciiRuntime aliceAndBob "A"
      (sampleUpload none "run.EXE" drawOne) (by decide) (by decide)).2.1
      ⟨by decide, by decide⟩,
    by decide,
    (file_type_rejected serverConfig asciiRuntime aliceAndBob "A"
      (sampleUpload none "README" drawOne) (by decide) (by decide)).2.1
      ⟨by decide, by decide⟩⟩

/-- Counterexample to C3: Alice uploads `a.png` for a recipient id that no
connected socket has, and then for her own id.  Both uploads are stored and in
both cases no socket receives a notification. -/
theorem upload_to_absent_recipient :
    accepts serverConfig asciiRuntime (sampleUpload (some "ghost") "a.png" drawOne) = true
    ∧ step serverConfig asciiRuntime aliceAndBob
        (.fileUpload "A" (sampleUpload (some "ghost") "a.png" drawOne))
      = (⟨["A", "B"], [("A", "Alice"), ("B", "Bob")],
          [("0102030405060708090a.png", [104, 105])], ["0102030405060708090a.png"]⟩, [])
    ∧ step serverConfig asciiRuntime aliceAndBob
        (.fileUpload "A" (sampleUpload (some "A") "a.png" drawOne))
      = (⟨["A", "B"], [("A", "Alice"), ("B", "Bob")],
          [("0102030405060708090a.png", [104, 105])], ["0102030405060708090a.png"]⟩, []) := by
  decide

/-- Witness of C3 as amended: Alice uploads `a.png` for Bob's socket; Bob receives
the one notification, Alice and a third socket receive nothing. -/
theorem point_to_point_delivery_witness :
    aliceAndBob.sockets.Nodup ∧ "A" ∈ aliceAndBob.sockets
    ∧ accepts serverConfig asciiRuntime (sampleUpload (some "B") "a.png" drawOne) = true
    ∧ received (step serverConfig asciiRuntime aliceAndBob
        (.fileUpload "A" (sampleUpload (some "B") "a.png" drawOne))).2 "B"
      = [.fileUpload { sender := some "Alice", fileName := "a.png",
                       fileUrl := "/uploads/0102030405060708090a.png" }]
    ∧ received (step serverConfig asciiRuntime aliceAndBob
        (.fileUpload "A" (sampleUpload (some "B") "a.png" drawOne))).2 "A" = [] :=
  ⟨by decide, by decide, by decide,
    ((point_to_point_delivery serverConfig asciiRuntime aliceAndBob "A"
      (sampleUpload (some "B") "a.png" drawOne) "B" (by decide) (by decide) (by decide)
      rfl (by decide)).1 (by decide) (by decide)).trans (by decide),
    (point_to_point_delivery serverConfig asciiRuntime aliceAndBob "A"
      (sampleUpload (some "B") "a.png" drawOne) "B" (by decide) (by decide) (by decide)
      rfl (by decide)).2.2.1⟩

/-- Witness of C8: Alice uploads `a.png` without a recipient; Alice and Bob both
receive the same notification, whose url names the stored file. -/
theorem broadcast_upload_delivery_witness :
    aliceAndBob.sockets.Nodup ∧ "A" ∈ aliceAndBob.sockets
    ∧ accepts serverConfig asciiRuntime (sampleUpload none "a.png" drawOne) = true
    ∧ getProp (step serverConfig asciiRuntime aliceAndBob
        (.fileUpload "A" (sampleUpload none "a.png" drawOne))).1.files
        "0102030405060708090a.png" = some [104, 105]
    ∧ (∀ d ∈ aliceAndBob.sockets,
        received (step serverConfig asciiRuntime aliceAndBob
          (.fileUpload "A" (sampleUpload none "a.png" drawOne))).2 d
        = [.fileUpload { sender := some "Alice", fileName := "a.png",
                         fileUrl := "/uploads/0102030405060708090a.png" }]) :=
  ⟨by decide, by decide, by decide,
    (broadcast_upload_delivery serverConfig asciiRuntime aliceAndBob "A"
      (sampleUpload none "a.png" drawOne) (by decide) (by decide) (by decide) rfl).1,
    (broadcast_upload_delivery serverConfig asciiRuntime aliceAndBob "A"
      (sampleUpload none "a.png" drawOne) (by decide) (by decide) (by decide) rfl).2.1⟩

/-- Counterexample to C10: the accepted upload `photo.PNG`, whose extension is
`PNG`, is stored under a name that ends in `.png`: the stored name is not the
token followed by `.` and the extension as it stands in `fileName`, and does not
end in `.PNG`. -/
theorem extension_case_not_kept :
    accepts serverConfig asciiRuntime (sampleUpload none "photo.PNG" drawOne) = true
    ∧ specExtension "photo.PNG" = "PNG"
    ∧ (step serverConfig asciiRuntime aliceAndBob
        (.fileUpload "A" (sampleUpload none "photo.PNG" drawOne))).1.files
      = [("0102030405060708090a.png", [104, 105])]
    ∧ safeFileName serverConfig asciiRuntime (sampleUpload none "photo.PNG" drawOne)
      ≠ toHex drawOne.val ++ "." ++ specExtension "photo.PNG"
    ∧ ¬ (".PNG".data <:+
        (safeFileName serverConfig asciiRuntime (sampleUpload none "photo.PNG" drawOne)).data) := by
  decide

/-- Witness of C10 as amended: `a.png` and `b.png`, uploaded with two different
random draws, are stored under two different names, both ending in `.png`, and
neither is the original name. -/
theorem randomized_stored_name_witness :
    "A" ∈ aliceAndBob.sockets ∧ serverConfig.ENCRYPT_FILE_NAMES = true
    ∧ accepts serverConfig asciiRuntime (sampleUpload none "a.png" drawOne) = true
    ∧ safeFileName serverConfig asciiRuntime (sampleUpload none "a.png" drawOne)
        = "0102030405060708090a" ++ ".png"
    ∧ safeFileName serverConfig asciiRuntime (sampleUpload none "b.png" drawTwo)
        = "abcdef00112233445566" ++ ".png"
    ∧ safeFileName serverConfig asciiRuntime (sampleUpload none "b.png" drawTwo)
        ≠ safeFileName serverConfig asciiRuntime (sampleUpload none "a.png" drawOne)
    ∧ safeFileName serverConfig asciiRuntime (sampleUpload none "a.png" drawOne) ≠ "a.png"
    ∧ safeFileName serverConfig asciiRuntime (sampleUpload none "b.png" drawTwo) ≠ "b.png" :=
  ⟨by decide, rfl, by decide,
    (randomized_stored_name serverConfig asciiRuntime aliceAndBob "A"
      (sampleUpload none "a.png" drawOne) (by decide) rfl (by decide)).2.1.trans (by decide),
    by decide,
    (randomized_stored_name serverConfig asciiRuntime aliceAndBob "A"
      (sampleUpload none "a.png" drawOne) (by decide) rfl (by decide)).2.2.2.2
      (sampleUpload none "b.png" drawTwo) (by decide),
    by decide, by decide⟩

/-- C1, evaluated on the code: socket `A` connects and never sets a name, `B` is
named Bob; `A` uploads `a.png`.  The handler does not ignore the event: the file
is written, a delete timer is armed, and both sockets receive a file
notification whose sender is `undefined`. -/
theorem anonymous_upload_processed :
    run serverConfig asciiRuntime State.init
      [.connect "A", .connect "B", .setUsername "B" "Bob",
        .fileUpload "A" (sampleUpload none "a.png" drawOne)]
    = (⟨["A", "B"], [("B", "Bob")],
        [("0102030405060708090a.png", [104, 105])], ["0102030405060708090a.png"]⟩,
       [("A", .userUpdate ["Bob"]), ("B", .userUpdate ["Bob"]),
        ("A", .fileUpload { sender := none, fileName := "a.png",
                            fileUrl := "/uploads/0102030405060708090a.png" }),
        ("B", .fileUpload { sender := none, fileName := "a.png",
                            fileUrl := "/uploads/0102030405060708090a.png" })]) := by
  decide

/-! ## The claims on names, chat and disconnect -/

theorem objectValues_eq_filterMap {β : Type} (obj : List (String × β))
    (h : (objectKeys obj).Nodup) :
    objectValues obj = (objectKeys obj).filterMap (getProp obj) := by
  induction obj with
  | nil => rfl
  | cons p rest ih =>
    obtain ⟨k, v⟩ := p
    have h2 : k ∉ objectKeys rest ∧ (objectKeys rest).Nodup := by
      simpa [objectKeys] using h
    have hrest : (objectKeys rest).filterMap (getProp ((k, v) :: rest))
        = (objectKeys rest).filterMap (getProp rest) := by
      apply List.filterMap_congr
      intro k' hk'
      have hne : ¬ k = k' := fun e => h2.1 (e ▸ hk')
      simp [getProp, hne]
    have hk : getProp ((k, v) :: rest) k = some v := by simp [getProp]
    show v :: objectValues rest
      = List.filterMap (getProp ((k, v) :: rest)) (k :: objectKeys rest)
    rw [List.filterMap_cons_some hk, hrest, ih h2.2]

theorem objectKeys_setProp_nodup {β : Type} (obj : List (String × β)) (k : String) (v : β)
    (h : (objectKeys obj).Nodup) : (objectKeys (setProp obj k v)).Nodup := by
  rw [objectKeys_setProp]
  by_cases hk : k ∈ objectKeys obj
  · rw [if_pos hk]; exact h
  · rw [if_neg hk]
    exact List.Nodup.append h (List.nodup_singleton k) (by
      intro x hx hx2
      rw [List.mem_singleton] at hx2
      exact hk (hx2 ▸ hx))

/-- C9: a `set username` event of a connected socket `c` with any string `n`
leaves `users` mapping `c` to `n` with every other entry unchanged; the keys keep
their order, `c` being appended at the end only when it had no entry; and every
connected socket receives exactly one `user update` carrying the values of
`users` in that key order. -/
theorem set_username_presence (cfg : Config) (rt : Runtime) (s : State) (c : ConnId)
    (n : String) (hnd : s.sockets.Nodup) (hkeys : (objectKeys s.users).Nodup)
    (hc : c ∈ s.sockets) :
    getProp (step cfg rt s (.setUsername c n)).1.users c = some n
    ∧ (∀ d, d ≠ c → getProp (step cfg rt s (.setUsername c n)).1.users d = getProp s.users d)
    ∧ objectKeys (step cfg rt s (.setUsername c n)).1.users
        = (if c ∈ objectKeys s.users then objectKeys s.users else objectKeys s.users ++ [c])
    ∧ objectValues (step cfg rt s (.setUsername c n)).1.users
        = (objectKeys (step cfg rt s (.setUsername c n)).1.users).filterMap
            (getProp (step cfg rt s (.setUsername c n)).1.users)
    ∧ (step cfg rt s (.setUsername c n)).1.sockets = s.sockets
    ∧ (∀ d ∈ s.sockets, received (step cfg rt s (.setUsername c n)).2 d
        = [.userUpdate (objectValues (step cfg rt s (.setUsername c n)).1.users)])
    ∧ (∀ d, d ∉ s.sockets → received (step cfg rt s (.setUsername c n)).2 d = []) := by
  have hstep : step cfg rt s (.setUsername c n) = onSetUsername s c n := by
    simp [step, hc]
  rw [hstep]
  refine ⟨getProp_setProp_self _ _ _, fun d hd => getProp_setProp_of_ne _ _ _ _ hd,
    objectKeys_setProp _ _ _,
    objectValues_eq_filterMap _ (objectKeys_setProp_nodup _ _ _ hkeys), rfl, ?_, ?_⟩
  · intro d hd
    exact received_ioEmit_of_mem _ _ d hnd hd
  · intro d hd
    exact received_ioEmit_of_not_mem _ _ d hd

/-- Witness of C9: after `A` has set the name Alice, `B` sets the name Bob; both
sockets receive the list Alice, Bob, and the keys stand in the order `A`, `B`. -/
theorem set_username_presence_witness :
    (run serverConfig asciiRuntime State.init
        [.connect "A", .connect "B", .setUsername "A" "Alice"]).1
      = ⟨["A", "B"], [("A", "Alice")], [], []⟩
    ∧ (["A", "B"] : List ConnId).Nodup ∧ (objectKeys [("A", "Alice")]).Nodup
    ∧ "B" ∈ (["A", "B"] : List ConnId)
    ∧ (∀ d ∈ ["A", "B"],
        received (step serverConfig asciiRuntime ⟨["A", "B"], [("A", "Alice")], [], []⟩
          (.setUsername "B" "Bob")).2 d = [.userUpdate ["Alice", "Bob"]])
    ∧ objectKeys (step serverConfig asciiRuntime ⟨["A", "B"], [("A", "Alice")], [], []⟩
        (.setUsername "B" "Bob")).1.users = ["A", "B"] :=
  ⟨by decide, by decide, by decide, by decide,
    fun d hd => ((set_username_presence serverConfig asciiRuntime
      ⟨["A", "B"], [("A", "Alice")], [], []⟩ "B" "Bob" (by decide) (by decide)
      (by decide)).2.2.2.2.2.1 d hd).trans (by decide),
    (set_username_presence serverConfig asciiRuntime
      ⟨["A", "B"], [("A", "Alice")], [], []⟩ "B" "Bob" (by decide) (by decide)
      (by decide)).2.2.1.trans (by decide)⟩

/-- C6, evaluated on the code: socket `A` sets the empty string as its name, which
`set username` stores and announces, and then sends a chat message.  The only
deliveries of the whole run are the presence updates of the `set username`
event: the truthiness test of line 47 drops the chat message of the named
socket. -/
theorem empty_name_chat_dropped :
    run serverConfig asciiRuntime State.init
      [.connect "A", .connect "B", .setUsername "A" "", .chatMessage "A" "hi" "12:00"]
    = (⟨["A", "B"], [("A", "")], [], []⟩,
       [("A", .userUpdate [""]), ("B", .userUpdate [""])]) := by
  decide

/-- The chat handler, case by case: a chat message with text `t` from a connected
socket whose entry in `users` is a non-empty name `n` is delivered exactly once
to every connected socket, the sender included, carrying `n` and `t`, and leaves
the state unchanged; from a socket with no entry it causes no delivery and no
change of state, and the truthiness test of line 47 treats an entry that is the
empty string the same way. -/
theorem chat_message_delivery (cfg : Config) (rt : Runtime) (s : State) (c : ConnId)
    (t now : String) (hnd : s.sockets.Nodup) (hc : c ∈ s.sockets) :
    (∀ n, getProp s.users c = some n → n ≠ "" →
        (step cfg rt s (.chatMessage c t now)).1 = s
        ∧ (∀ d ∈ s.sockets, received (step cfg rt s (.chatMessage c t now)).2 d
            = [.chatMessage { username := n, message := t, timestamp := some now,
                              system := none }])
        ∧ (∀ d, d ∉ s.sockets → received (step cfg rt s (.chatMessage c t now)).2 d = []))
    ∧ ((getProp s.users c = none ∨ getProp s.users c = some "") →
        step cfg rt s (.chatMessage c t now) = (s, [])) := by
  have hstep : step cfg rt s (.chatMessage c t now) = onChatMessage s c t now := by
    simp [step, hc]
  rw [hstep]
  constructor
  · intro n hn hne
    have hrun : onChatMessage s c t now = (s, ioEmit s (.chatMessage
        { username := n, message := t, timestamp := some now, system := none })) := by
      simp [onChatMessage, hn, truthy, hne]
    rw [hrun]
    exact ⟨rfl, fun d hd => received_ioEmit_of_mem _ _ d hnd hd,
      fun d hd => received_ioEmit_of_not_mem _ _ d hd⟩
  · intro h
    rcases h with h | h <;> simp [onChatMessage, h, truthy]

/-- An instance of `chat_message_delivery`: Alice sends `hi`; Alice and Bob each
receive the one chat message from Alice. -/
theorem chat_message_delivery_witness :
    aliceAndBob.sockets.Nodup ∧ "A" ∈ aliceAndBob.sockets
    ∧ getProp aliceAndBob.users "A" = some "Alice"
    ∧ (∀ d ∈ aliceAndBob.sockets,
        received (step serverConfig asciiRuntime aliceAndBob
          (.chatMessage "A" "hi" "12:00")).2 d
        = [.chatMessage { username := "Alice", message := "hi", timestamp := some "12:00",
                          system := none }]) :=
  ⟨by decide, by decide, by decide,
    ((chat_message_delivery serverConfig asciiRuntime aliceAndBob "A" "hi" "12:00"
      (by decide) (by decide)).1 "Alice" (by decide) (by decide)).2.1⟩

theorem step_disconnect (cfg : Config) (rt : Runtime) (s : State) (c : ConnId)
    (hc : c ∈ s.sockets) :
    step cfg rt s (.disconnect c)
      = onDisconnect { s with sockets := s.sockets.filter fun d => decide (d ≠ c) } c := by
  simp [step, hc]

/-- C7, evaluated on the code: socket `A` sets the empty string as its name, `B`
sets the name Bob, then `A` disconnects.  `A` has an entry in `users`, yet the
truthiness test of line 109 skips the whole handler body: Bob receives no system
message and no presence update for the disconnect (the only deliveries of the run
are those of the two `set username` events), and the entry of `A` stays in
`users`. -/
theorem empty_name_disconnect_silent :
    getProp (⟨["A", "B"], [("A", ""), ("B", "Bob")], [], []⟩ : State).users "A" = some ""
    ∧ step serverConfig asciiRuntime ⟨["A", "B"], [("A", ""), ("B", "Bob")], [], []⟩
        (.disconnect "A")
      = (⟨["B"], [("A", ""), ("B", "Bob")], [], []⟩, [])
    ∧ run serverConfig asciiRuntime State.init
        [.connect "A", .connect "B", .setUsername "A" "", .setUsername "B" "Bob",
          .disconnect "A"]
      = (⟨["B"], [("A", ""), ("B", "Bob")], [], []⟩,
         [("A", .userUpdate [""]), ("B", .userUpdate [""]),
          ("A", .userUpdate ["", "Bob"]), ("B", .userUpdate ["", "Bob"])]) := by
  decide

/-- The disconnect handler outside the empty name: when a connected socket `c`
whose entry in `users` is a non-empty name `n` disconnects, every other connected
socket receives exactly one system chat message (username `System`, text `n`
followed by ` left the chat!`, system flag true) and then one `user update` with
the remaining names in their previous order; `c` receives nothing and its entry
is removed, the other entries staying as they were.  When `c` has no entry,
nothing is delivered and `users` is unchanged. -/
theorem disconnect_delivery (cfg : Config) (rt : Runtime) (s : State) (c : ConnId)
    (hnd : s.sockets.Nodup) (hc : c ∈ s.sockets) :
    (∀ n, getProp s.users c = some n → n ≠ "" →
        (step cfg rt s (.disconnect c)).1.sockets = s.sockets.filter (fun d => decide (d ≠ c))
        ∧ (step cfg rt s (.disconnect c)).1.users = s.users.filter (fun p => decide (p.1 ≠ c))
        ∧ getProp (step cfg rt s (.disconnect c)).1.users c = none
        ∧ (∀ d, d ≠ c → getProp (step cfg rt s (.disconnect c)).1.users d = getProp s.users d)
        ∧ (∀ d ∈ s.sockets, d ≠ c → received (step cfg rt s (.disconnect c)).2 d
            = [.chatMessage { username := "System", message := n ++ " left the chat!",
                              timestamp := none, system := some true },
               .userUpdate (objectValues (s.users.filter (fun p => decide (p.1 ≠ c))))])
        ∧ received (step cfg rt s (.disconnect c)).2 c = []
        ∧ (∀ d, d ∉ s.sockets → received (step cfg rt s (.disconnect c)).2 d = []))
    ∧ (getProp s.users c = none →
        (step cfg rt s (.disconnect c)).2 = []
        ∧ (step cfg rt s (.disconnect c)).1.users = s.users) := by
  rw [step_disconnect cfg rt s c hc]
  constructor
  · intro n hn hne
    have hnd2 : (s.sockets.filter fun d => decide (d ≠ c)).Nodup := hnd.filter _
    have hrun : onDisconnect { s with sockets := s.sockets.filter fun d => decide (d ≠ c) } c
        = ({ s with sockets := s.sockets.filter fun d => decide (d ≠ c),
                    users := deleteProp s.users c },
           broadcastEmit { s with sockets := s.sockets.filter fun d => decide (d ≠ c) } c
              (.chatMessage { username := "System", message := n ++ " left the chat!",
                              timestamp := none, system := some true })
           ++ ioEmit { s with sockets := s.sockets.filter fun d => decide (d ≠ c),
                              users := deleteProp s.users c }
              (.userUpdate (objectValues (deleteProp s.users c)))) := by
      simp [onDisconnect, hn, truthy, hne]
    rw [hrun]
    refine ⟨rfl, rfl, getProp_deleteProp_self _ _,
      fun d hd => getProp_deleteProp_of_ne _ _ _ hd, ?_, ?_, ?_⟩
    · intro d hd hdc
      have hd2 : d ∈ s.sockets.filter fun d => decide (d ≠ c) := by
        simp [hd, hdc]
      rw [received_append,
        received_broadcastEmit_of_mem _ _ c d hnd2 hd2 hdc,
        received_ioEmit_of_mem _ _ d hnd2 hd2]
      rfl
    · rw [received_append, received_broadcastEmit_self, received_ioEmit_of_not_mem]
      · rfl
      · simp
    · intro d hd
      have hd2 : d ∉ s.sockets.filter fun d => decide (d ≠ c) := by
        intro h
        exact hd (List.mem_filter.mp h).1
      rw [received_append, received_ioEmit_of_not_mem _ _ d hd2]
      unfold broadcastEmit
      rw [received_pairs, List.count_eq_zero_of_not_mem]
      · rfl
      · intro h
        exact hd2 (List.mem_filter.mp h).1
  · intro hn
    simp [onDisconnect, hn, truthy]

/-- An instance of `disconnect_delivery`: Alice disconnects; Bob receives the
system message `Alice left the chat!` and the presence list with Bob alone, Alice
receives nothing and her entry is gone. -/
theorem disconnect_delivery_witness :
    aliceAndBob.sockets.Nodup ∧ "A" ∈ aliceAndBob.sockets
    ∧ getProp aliceAndBob.users "A" = some "Alice"
    ∧ received (step serverConfig asciiRuntime aliceAndBob (.disconnect "A")).2 "B"
      = [.chatMessage { username := "System", message := "Alice left the chat!",
                        timestamp := none, system := some true },
         .userUpdate ["Bob"]]
    ∧ received (step serverConfig asciiRuntime aliceAndBob (.disconnect "A")).2 "A" = []
    ∧ (step serverConfig asciiRuntime aliceAndBob (.disconnect "A")).1.users = [("B", "Bob")] :=
  ⟨by decide, by decide, by decide,
    (((disconnect_delivery serverConfig asciiRuntime aliceAndBob "A" (by decide)
      (by decide)).1 "Alice" (by decide) (by decide)).2.2.2.2.1 "B" (by decide)
      (by decide)).trans (by decide),
    ((disconnect_delivery serverConfig asciiRuntime aliceAndBob "A" (by decide)
      (by decide)).1 "Alice" (by decide) (by decide)).2.2.2.2.2.1,
    (((disconnect_delivery serverConfig asciiRuntime aliceAndBob "A" (by decide)
      (by decide)).1 "Alice" (by decide) (by decide)).2.1).trans (by decide)⟩

/-- C2, evaluated on the code: socket `A` connects, sets the empty string as its
name and disconnects; then `B` connects and sets the name Bob.  After the
disconnect `users` still holds the entry of `A`, which is no longer connected,
and the presence list sent to `B` still carries the name of `A`. -/
theorem empty_name_entry_outlives_socket :
    (run serverConfig asciiRuntime State.init
        [.connect "A", .setUsername "A" "", .disconnect "A"]).1
      = ⟨[], [("A", "")], [], []⟩
    ∧ run serverConfig asciiRuntime State.init
        [.connect "A", .setUsername "A" "", .disconnect "A",
          .connect "B", .setUsername "B" "Bob"]
      = (⟨["B"], [("A", ""), ("B", "Bob")], [], []⟩,
         [("A", .userUpdate [""]), ("B", .userUpdate ["", "Bob"])]) := by
  decide

/-! ## Invariants of the reachable states -/

theorem onFileUpload_keeps (cfg : Config) (rt : Runtime) (s : State) (c : ConnId) (u : Upload) :
    (onFileUpload cfg rt s c u).1.sockets = s.sockets
      ∧ (onFileUpload cfg rt s c u).1.users = s.users := by
  rcases onFileUpload_outcome cfg rt s c u with ⟨_, h⟩ | ⟨_, _, h⟩ | ⟨_, _, h⟩ | ⟨_, _, h⟩
  · rw [h]; exact ⟨rfl, rfl⟩
  · rw [h]; exact ⟨rfl, rfl⟩
  · rw [h]; exact ⟨rfl, rfl⟩
  · rw [onFileUpload_accepted cfg rt s c u h]; exact ⟨rfl, rfl⟩

theorem onChatMessage_keeps (s : State) (c : ConnId) (t now : String) :
    (onChatMessage s c t now).1 = s := by
  unfold onChatMessage
  split
  · rfl
  · split <;> rfl

theorem onDisconnect_users (s : State) (c : ConnId) :
    (onDisconnect s c).1.sockets = s.sockets
      ∧ ((onDisconnect s c).1.users = s.users
          ∧ (getProp s.users c = none ∨ getProp s.users c = some "")
        ∨ (onDisconnect s c).1.users = deleteProp s.users c) := by
  cases h : getProp s.users c with
  | none => simp [onDisconnect, h, truthy]
  | some n =>
    by_cases hn : n = ""
    · simp [onDisconnect, h, truthy, hn]
    · simp [onDisconnect, h, truthy, hn]

theorem objectKeys_deleteProp {β : Type} (obj : List (String × β)) (k : String) :
    objectKeys (deleteProp obj k) = (objectKeys obj).filter (fun d => decide (d ≠ k)) := by
  induction obj with
  | nil => rfl
  | cons p rest ih =>
    rw [deleteProp_cons]
    by_cases h : p.1 = k
    · rw [if_pos h, ih]
      simp [objectKeys, List.filter_cons, h]
    · rw [if_neg h]
      simp only [objectKeys] at ih
      simp [objectKeys, List.filter_cons, h, ih]

theorem mem_setProp {β : Type} (obj : List (String × β)) (k : String) (v : β)
    (p : String × β) (hp : p ∈ setProp obj k v) : p ∈ obj ∨ p = (k, v) := by
  induction obj with
  | nil =>
    simp only [setProp, List.mem_singleton] at hp
    exact Or.inr hp
  | cons q rest ih =>
    obtain ⟨k', v'⟩ := q
    by_cases h : k' = k
    · simp only [setProp, if_pos h, List.mem_cons] at hp
      rcases hp with e | e
      · exact Or.inr e
      · exact Or.inl (List.mem_cons_of_mem _ e)
    · simp only [setProp, if_neg h, List.mem_cons] at hp
      rcases hp with e | e
      · exact Or.inl (by rw [e]; exact List.mem_cons_self _ _)
      · rcases ih e with e2 | e2
        · exact Or.inl (List.mem_cons_of_mem _ e2)
        · exact Or.inr e2

theorem mem_of_getProp {β : Type} (obj : List (String × β)) (k : String) (v : β)
    (h : getProp obj k = some v) : (k, v) ∈ obj := by
  induction obj with
  | nil => simp [getProp] at h
  | cons q rest ih =>
    obtain ⟨k', v'⟩ := q
    by_cases hk : k' = k
    · simp only [getProp, if_pos hk, Option.some.injEq] at h
      rw [hk, h]; exact List.mem_cons_self _ _
    · simp only [getProp, if_neg hk] at h
      exact List.mem_cons_of_mem _ (ih h)

/-- Every step keeps the connected sockets and the keys of `users` free of
duplicates. -/
theorem step_wellformed (cfg : Config) (rt : Runtime) (s : State) (e : Event)
    (h : s.sockets.Nodup ∧ (objectKeys s.users).Nodup) :
    (step cfg rt s e).1.sockets.Nodup ∧ (objectKeys (step cfg rt s e).1.users).Nodup := by
  cases e with
  | connect c =>
    by_cases hc : c ∈ s.sockets
    · simpa [step, hc] using h
    · simp only [step, if_neg hc]
      refine ⟨List.Nodup.append h.1 (List.nodup_singleton c) ?_, h.2⟩
      intro x hx hx2
      rw [List.mem_singleton] at hx2
      exact hc (hx2 ▸ hx)
  | setUsername c n =>
    by_cases hc : c ∈ s.sockets
    · simp only [step, if_pos hc, onSetUsername]
      exact ⟨h.1, objectKeys_setProp_nodup _ _ _ h.2⟩
    · simpa [step, hc] using h
  | chatMessage c t now =>
    by_cases hc : c ∈ s.sockets
    · simp only [step, if_pos hc, onChatMessage_keeps]
      exact h
    · simpa [step, hc] using h
  | fileUpload c u =>
    by_cases hc : c ∈ s.sockets
    · simp only [step, if_pos hc]
      rw [(onFileUpload_keeps cfg rt s c u).1, (onFileUpload_keeps cfg rt s c u).2]
      exact h
    · simpa [step, hc] using h
  | disconnect c =>
    by_cases hc : c ∈ s.sockets
    · rw [step_disconnect cfg rt s c hc]
      obtain ⟨h1, h2⟩ := onDisconnect_users
        { s with sockets := s.sockets.filter fun d => decide (d ≠ c) } c
      rw [h1]
      refine ⟨h.1.filter _, ?_⟩
      rcases h2 with ⟨h2, _⟩ | h2
      · rw [h2]; exact h.2
      · rw [h2, objectKeys_deleteProp]; exact h.2.filter _
    · simpa [step, hc] using h

/-- In every state reached from start-up the connected sockets and the keys of
`users` are free of duplicates. -/
theorem run_wellformed (cfg : Config) (rt : Runtime) (es : List Event) (s : State)
    (h : s.sockets.Nodup ∧ (objectKeys s.users).Nodup) :
    (run cfg rt s es).1.sockets.Nodup ∧ (objectKeys (run cfg rt s es).1.users).Nodup := by
  induction es generalizing s with
  | nil => exact h
  | cons e rest ih => exact ih _ (step_wellformed cfg rt s e h)

/-- Every state reached from start-up has duplicate-free sockets and keys, which
are the side conditions of the delivery theorems. -/
theorem reachable_wellformed (cfg : Config) (rt : Runtime) (es : List Event) :
    (run cfg rt State.init es).1.sockets.Nodup
      ∧ (objectKeys (run cfg rt State.init es).1.users).Nodup :=
  run_wellformed cfg rt es State.init ⟨List.nodup_nil, List.nodup_nil⟩

/-- As long as no empty name is stored, a step keeps every key of `users` among
the connected sockets. -/
theorem step_keys_live (cfg : Config) (rt : Runtime) (s : State) (e : Event)
    (he : e.namesNonEmpty)
    (h : (∀ k ∈ objectKeys s.users, k ∈ s.sockets) ∧ ∀ p ∈ s.users, p.2 ≠ "") :
    (∀ k ∈ objectKeys (step cfg rt s e).1.users, k ∈ (step cfg rt s e).1.sockets)
      ∧ ∀ p ∈ (step cfg rt s e).1.users, p.2 ≠ "" := by
  cases e with
  | connect c =>
    by_cases hc : c ∈ s.sockets
    · simpa [step, hc] using h
    · simp only [step, if_neg hc]
      exact ⟨fun k hk => List.mem_append_left _ (h.1 k hk), h.2⟩
  | setUsername c n =>
    by_cases hc : c ∈ s.sockets
    · simp only [step, if_pos hc, onSetUsername]
      constructor
      · intro k hk
        rw [objectKeys_setProp] at hk
        by_cases hm : c ∈ objectKeys s.users
        · rw [if_pos hm] at hk; exact h.1 k hk
        · rw [if_neg hm] at hk
          rcases List.mem_append.mp hk with e | e
          · exact h.1 k e
          · rw [List.mem_singleton] at e; rw [e]; exact hc
      · intro p hp
        rcases mem_setProp _ _ _ _ hp with e | e
        · exact h.2 p e
        · rw [e]; exact he
    · simpa [step, hc] using h
  | chatMessage c t now =>
    by_cases hc : c ∈ s.sockets
    · simp only [step, if_pos hc, onChatMessage_keeps]
      exact h
    · simpa [step, hc] using h
  | fileUpload c u =>
    by_cases hc : c ∈ s.sockets
    · simp only [step, if_pos hc]
      rw [(onFileUpload_keeps cfg rt s c u).1, (onFileUpload_keeps cfg rt s c u).2]
      exact h
    · simpa [step, hc] using h
  | disconnect c =>
    by_cases hc : c ∈ s.sockets
    · rw [step_disconnect cfg rt s c hc]
      obtain ⟨h1, h2⟩ := onDisconnect_users
        { s with sockets := s.sockets.filter fun d => decide (d ≠ c) } c
      rw [h1]
      rcases h2 with ⟨h2, h3⟩ | h2
      · rw [h2]
        refine ⟨?_, h.2⟩
        intro k hk
        have hkc : k ≠ c := by
          intro e
          rw [e] at hk
          rcases h3 with h3 | h3
          · exact (getProp_eq_none_iff _ _).mp h3 hk
          · exact h.2 _ (mem_of_getProp _ _ _ h3) rfl
        exact List.mem_filter.mpr ⟨h.1 k hk, by simpa using hkc⟩
      · rw [h2]
        constructor
        · intro k hk
          rw [objectKeys_deleteProp] at hk
          obtain ⟨hk1, hk2⟩ := List.mem_filter.mp hk
          exact List.mem_filter.mpr ⟨h.1 k hk1, hk2⟩
        · intro p hp
          exact h.2 p ((deleteProp_sublist _ _).subset hp)
    · simpa [step, hc] using h

/-- As long as no empty name is stored, every key of `users` is a connected
socket in every state reached from start-up. -/
theorem registry_keys_live (cfg : Config) (rt : Runtime) (es : List Event)
    (hes : ∀ e ∈ es, e.namesNonEmpty) :
    ∀ k ∈ objectKeys (run cfg rt State.init es).1.users,
      k ∈ (run cfg rt State.init es).1.sockets := by
  have gen : ∀ (es : List Event) (s : State), (∀ e ∈ es, e.namesNonEmpty) →
      ((∀ k ∈ objectKeys s.users, k ∈ s.sockets) ∧ ∀ p ∈ s.users, p.2 ≠ "") →
      ((∀ k ∈ objectKeys (run cfg rt s es).1.users, k ∈ (run cfg rt s es).1.sockets)
        ∧ ∀ p ∈ (run cfg rt s es).1.users, p.2 ≠ "") := by
    intro es
    induction es with
    | nil => intro s _ h; exact h
    | cons e rest ih =>
      intro s hes h
      exact ih _ (fun e2 he2 => hes e2 (List.mem_cons_of_mem _ he2))
        (step_keys_live cfg rt s e (hes e (List.mem_cons_self _ _)) h)
  exact (gen es State.init hes ⟨by simp [State.init, objectKeys], by simp [State.init]⟩).1

end Relay
